import Mathlib

/-!
Verification of the LD19 lidar packet pipeline (`ld19_visualizer.py`).

The embedding mirrors the `LD19Lidar` class: `parse_meas` is the
measurement-extracting core of `LD19Lidar.parse_packet`, `pointOf` is the
polar-to-Cartesian projection performed inside its loop, `readPacketAux`
models the header-scanning loop of `LD19Lidar.read_packet` over a finite
byte stream, and `dpush`/`dextend` model `collections.deque` with a
`maxlen` bound, as used for `self.points`.

Bytes of the serial stream are `Fin 256`.  The float arithmetic
`(start_angle + i * 0.83) % 360` with `start_angle = raw / 100.0` is an
arithmetic of exact multiples of `0.01`; it is carried exactly in
hundredths of a degree over `ℕ` (`(raw + i * 83) % 36000`), and the lemma
`angle100_eq_qmod360` proves this equal to the ideal rational value
`qmod360 (raw / 100 + i * (83 / 100))`.  The trigonometric projection is
over `ℝ`.
-/

set_option autoImplicit false

namespace LD19

/-- A byte of the serial stream (elements of Python `bytes` are 0–255). -/
abbrev Byte := Fin 256

/-- `LD19Lidar.HEADER = 0x54`. -/
def HEADER : ℕ := 0x54

/-- `LD19Lidar.PACKET_SIZE = 47`. -/
def PACKET_SIZE : ℕ := 47

/-- `data[k]` as a natural number; `parse_packet` only indexes under its
length guard, so the default never materialises there. -/
def byteAt (d : List Byte) (k : ℕ) : ℕ := (d.getD k 0).val

/-- `struct.unpack('<H', data[k:k+2])[0]`: little-endian unsigned 16-bit
field at offset `k`. -/
def u16 (d : List Byte) (k : ℕ) : ℕ := byteAt d k + 256 * byteAt d (k + 1)

/-- Python `x % 360.0` for the nonnegative angle values of the parser,
as exact rational arithmetic. -/
def qmod360 (x : ℚ) : ℚ := x - 360 * ⌊x / 360⌋

/-- One decoded measurement before Cartesian projection: the absolute
angle in hundredths of a degree, the raw distance in mm, and the
intensity byte. -/
structure Meas where
  angle100 : ℕ
  dist : ℕ
  intensity : ℕ
  deriving DecidableEq

/-- The assigned absolute angle of a measurement, in degrees. -/
def Meas.angle (m : Meas) : ℚ := (m.angle100 : ℚ) / 100

/-- `start_angle = struct.unpack('<H', data[4:6])[0] / 100.0`, degrees. -/
def start_angle (d : List Byte) : ℚ := (u16 d 4 : ℚ) / 100

/-- `end_angle = struct.unpack('<H', data[42:44])[0] / 100.0`, degrees.
Read by `parse_packet` but never used for angle assignment. -/
def end_angle (d : List Byte) : ℚ := (u16 d 42 : ℚ) / 100

/-- One iteration of the measurement loop of `parse_packet`: at slot `i`
(offset `6 + i*3`) read the 2-byte distance and the intensity byte; when
`distance > 0`, yield the measurement with
`angle = (start_angle + i * 0.83) % 360`, held exactly in hundredths of
a degree. -/
def slotMeas (d : List Byte) (i : ℕ) : Option Meas :=
  let offset := 6 + i * 3
  let distance := u16 d offset
  let intensity := byteAt d (offset + 2)
  if 0 < distance then
    some ⟨(u16 d 4 + i * 83) % 36000, distance, intensity⟩
  else
    none

/-- The measurement list produced by `LD19Lidar.parse_packet`: reject
unless the length is exactly 47 and the first byte is the header marker,
then collect (in slot order) the measurements of the 12 slots whose
distance is positive. -/
def parse_meas (d : List Byte) : Option (List Meas) :=
  if d.length ≠ PACKET_SIZE ∨ byteAt d 0 ≠ HEADER then
    none
  else
    some ((List.range 12).filterMap (slotMeas d))

/-- `np.radians`: degrees to radians. -/
noncomputable def radians (x : ℝ) : ℝ := x * Real.pi / 180

/-- The body of `points.append((x, y, intensity))`: project one
measurement to Cartesian coordinates,
`x = distance * cos(angle_rad)`, `y = distance * sin(angle_rad)`. -/
noncomputable def pointOf (m : Meas) : ℝ × ℝ × ℕ :=
  let angle_rad := radians ((m.angle : ℚ) : ℝ)
  ((m.dist : ℝ) * Real.cos angle_rad, (m.dist : ℝ) * Real.sin angle_rad,
    m.intensity)

/-- `LD19Lidar.parse_packet` in full: the measurement list with each
entry projected to a Cartesian point. -/
noncomputable def parse_packet (d : List Byte) : Option (List (ℝ × ℝ × ℕ)) :=
  (parse_meas d).map (fun ms => ms.map pointOf)

/-- The scanning loop of `LD19Lidar.read_packet` over a finite byte
stream: read one byte at a time; on end of stream return `none`; on a
non-header byte keep scanning; on the header byte read the next 46 bytes
as a block and return the 47-byte frame, or, when fewer than 46 bytes
remain, consume them and continue scanning (which, the stream being
exhausted, yields `none`). -/
def readPacketAux : List Byte → Option (List Byte)
  | [] => none
  | b :: rest =>
    if b.val = HEADER then
      if 46 ≤ rest.length then some (b :: rest.take 46)
      else readPacketAux (rest.drop 46)
    else readPacketAux rest
termination_by l => l.length
decreasing_by
  all_goals simp only [List.length_cons, List.length_drop]
  all_goals omega

/-- `LD19Lidar.read_packet` at measurement level: the synchronised frame,
if any, handed to the parser. -/
def read_packet (s : List Byte) : Option (List Meas) :=
  (readPacketAux s).bind parse_meas

/-- `LD19Lidar.read_packet` as written: the synchronised frame handed to
`parse_packet`, producing Cartesian points. -/
noncomputable def read_packet_points (s : List Byte) :
    Option (List (ℝ × ℝ × ℕ)) :=
  (readPacketAux s).bind parse_packet

/-- `deque(maxlen=C).append(x)`: append, evicting the oldest element
first when the buffer is at capacity. -/
def dpush {α : Type} (C : ℕ) (buf : List α) (x : α) : List α :=
  if buf.length + 1 ≤ C then buf ++ [x]
  else (buf ++ [x]).drop (buf.length + 1 - C)

/-- `deque(maxlen=C).extend(xs)`: append each element in turn. -/
def dextend {α : Type} (C : ℕ) (buf : List α) (xs : List α) : List α :=
  xs.foldl (dpush C) buf

/-- `LD19Lidar.update_points`: read one packet; on a truthy (non-`None`,
nonempty) point list, extend the bounded `points` deque (capacity 5000)
with it; otherwise leave the buffer untouched. -/
noncomputable def update_points (buf : List (ℝ × ℝ × ℕ)) (s : List Byte) :
    List (ℝ × ℝ × ℕ) :=
  match read_packet_points s with
  | none => buf
  | some ps => if ps = [] then buf else dextend 5000 buf ps

/-- The centidegree angle computation of `slotMeas` agrees exactly with
the ideal rational form `(start_angle + i * 0.83) % 360` of the source. -/
theorem angle100_eq_qmod360 (raw i : ℕ) :
    (((raw + i * 83) % 36000 : ℕ) : ℚ) / 100 =
      qmod360 ((raw : ℚ) / 100 + (i : ℚ) * (83 / 100)) := by
  set n : ℕ := raw + i * 83 with hn
  have hx : (raw : ℚ) / 100 + (i : ℚ) * (83 / 100) = (n : ℚ) / 100 := by
    rw [hn]
    push_cast
    ring
  rw [hx, qmod360]
  have hdiv : (n : ℚ) / 100 / 360 = (n : ℚ) / 36000 := by
    ring
  have h36 : ((36000 : ℕ) : ℚ) = (36000 : ℚ) := by norm_num
  have hfl : ⌊(n : ℚ) / 36000⌋ = ((n / 36000 : ℕ) : ℤ) := by
    rw [← h36, Rat.floor_natCast_div_natCast]
    norm_cast
  rw [hdiv, hfl]
  have hmod := congrArg (fun k : ℕ => (k : ℚ)) (Nat.mod_add_div n 36000)
  push_cast at hmod
  rw [Int.cast_natCast]
  linarith

/-- A well-formed test frame: `speed = 1000` RPM, `start_angle = 0`, all
12 slots with `distance = 1000` mm and `intensity = 100`,
`end_angle = 9.96` degrees, `timestamp = 0`, checksum byte `0x00`. -/
def goodFrame : List Byte :=
  [0x54, 0x00, 0xE8, 0x03, 0x00, 0x00,
   0xE8, 0x03, 0x64,
   0xE8, 0x03, 0x64,
   0xE8, 0x03, 0x64,
   0xE8, 0x03, 0x64,
   0xE8, 0x03, 0x64,
   0xE8, 0x03, 0x64,
   0xE8, 0x03, 0x64,
   0xE8, 0x03, 0x64,
   0xE8, 0x03, 0x64,
   0xE8, 0x03, 0x64,
   0xE8, 0x03, 0x64,
   0xE8, 0x03, 0x64,
   0xE4, 0x03, 0x00, 0x00, 0x00]

/-- The measurements `parse_packet` extracts from `goodFrame`: slot `i`
at angle `i * 0.83` degrees, distance 1000, intensity 100. -/
def goodMeas : List Meas :=
  (List.range 12).map (fun i => ⟨i * 83, 1000, 100⟩)

/-- `goodFrame` with its checksum byte replaced by `0x01`. -/
def goodFrameCrc1 : List Byte := goodFrame.set 46 0x01

/-- `goodFrame` with its end-angle field replaced by `20.00` degrees. -/
def frameEnd20 : List Byte := (goodFrame.set 42 0xD0).set 43 0x07

/-- `goodFrame` with slot 0 zeroed out (`distance = 0`). -/
def frameZeroSlot : List Byte := ((goodFrame.set 6 0).set 7 0).set 8 0

theorem readPacketAux_nil : readPacketAux [] = none := by
  simp [readPacketAux]

theorem readPacketAux_cons (b : Byte) (rest : List Byte) :
    readPacketAux (b :: rest) =
      if b.val = HEADER then
        if 46 ≤ rest.length then some (b :: rest.take 46)
        else readPacketAux (rest.drop 46)
      else readPacketAux rest := by
  rw [readPacketAux]

theorem readPacketAux_header (b : Byte) (rest : List Byte)
    (hb : b.val = HEADER) (h : 46 ≤ rest.length) :
    readPacketAux (b :: rest) = some (b :: rest.take 46) := by
  rw [readPacketAux_cons, if_pos hb, if_pos h]

theorem readPacketAux_goodFrame : readPacketAux goodFrame = some goodFrame := by
  simp only [goodFrame]
  rw [readPacketAux_header _ _ (by decide) (by decide)]
  decide

theorem length_dpush {α : Type} (C : ℕ) (buf : List α) (x : α) :
    (dpush C buf x).length = min (buf.length + 1) C := by
  unfold dpush
  split
  · simp only [List.length_append, List.length_cons, List.length_nil]
    omega
  · simp only [List.length_drop, List.length_append, List.length_cons,
      List.length_nil]
    omega

theorem dextend_eq_drop {α : Type} (C : ℕ) :
    ∀ (xs buf : List α), buf.length ≤ C →
      dextend C buf xs = (buf ++ xs).drop (buf.length + xs.length - C) := by
  intro xs
  induction xs with
  | nil =>
    intro buf h
    have h0 : buf.length - C = 0 := by omega
    simp [dextend, h0]
  | cons x xs ih =>
    intro buf h
    have hlen : (dpush C buf x).length ≤ C := by
      rw [length_dpush]
      omega
    have step : dextend C buf (x :: xs) = dextend C (dpush C buf x) xs := by
      simp [dextend]
    rw [step, ih _ hlen]
    by_cases hc : buf.length + 1 ≤ C
    · have hd : dpush C buf x = buf ++ [x] := by
        unfold dpush
        rw [if_pos hc]
      rw [hd]
      have hl : (buf ++ [x]) ++ xs = buf ++ x :: xs := by simp
      have hidx : (buf ++ [x]).length + xs.length - C =
          buf.length + (x :: xs).length - C := by
        simp only [List.length_append, List.length_cons, List.length_nil]
        omega
      rw [hl, hidx]
    · have hbc : buf.length = C := by omega
      have hd : dpush C buf x = (buf ++ [x]).drop 1 := by
        unfold dpush
        rw [if_neg hc]
        congr 1
        omega
      rw [hd]
      have hidx : ((buf ++ [x]).drop 1).length + xs.length - C = xs.length := by
        simp only [List.length_drop, List.length_append, List.length_cons,
          List.length_nil]
        omega
      rw [hidx]
      have hsplit : ((buf ++ [x]).drop 1) ++ xs = ((buf ++ [x]) ++ xs).drop 1 :=
        (List.drop_append_of_le_length (by simp)).symm
      rw [hsplit, List.drop_drop]
      have hl : (buf ++ [x]) ++ xs = buf ++ x :: xs := by simp
      have hidx2 : buf.length + (x :: xs).length - C = 1 + xs.length := by
        simp only [List.length_cons, hbc]
        omega
      rw [hl, hidx2]

/-- C3: pushing `N` points into an initially empty buffer of capacity
`C` leaves exactly the `min(N, C)` most recently pushed points in their
original relative order (the length-`min(N, C)` suffix of the input);
the length bound `≤ C` is preserved by any extension; and a full buffer
evicts exactly its single oldest element on insertion. -/
theorem buffer_fifo {α : Type} (C : ℕ) (xs : List α) (buf : List α) (x : α) :
    dextend C [] xs = xs.drop (xs.length - C) ∧
    (dextend C [] xs).length = min xs.length C ∧
    (buf.length ≤ C → (dextend C buf xs).length ≤ C) ∧
    (buf.length = C → 0 < C → dpush C buf x = buf.drop 1 ++ [x]) := by
  have h1 : dextend C [] xs = xs.drop (xs.length - C) := by
    have := dextend_eq_drop C xs [] (by simp)
    simpa using this
  refine ⟨h1, ?_, ?_, ?_⟩
  · rw [h1, List.length_drop]
    omega
  · intro h
    rw [dextend_eq_drop C xs buf h, List.length_drop, List.length_append]
    omega
  · intro hbc hC
    unfold dpush
    rw [if_neg (by omega)]
    have h2 : buf.length + 1 - C = 1 := by omega
    rw [h2]
    exact List.drop_append_of_le_length (by omega)

/-- Witness for `buffer_fifo` at capacity 2: pushing `[1, 2, 3]` keeps
`[2, 3]`, and pushing into the full `[10, 20]` evicts `10`. -/
theorem buffer_fifo_witness :
    dextend 2 ([] : List ℕ) [1, 2, 3] = [2, 3] ∧
    dpush 2 [10, 20] 30 = [20, 30] := by
  constructor
  · exact (buffer_fifo 2 [1, 2, 3] [] 0).1.trans (by decide)
  · exact (((buffer_fifo 2 [] [10, 20] 30).2.2.2 (by decide)
      (by decide)).trans (by decide))

/-- C6: the frame synchronizer reads one byte at a time and returns no
frame on an exhausted stream; it discards any byte that is not the 0x54
marker; on the marker with at least 46 following bytes it takes them as
a block; on the marker with a short tail it consumes the tail and
resumes the byte-by-byte search on what follows, which (the stream
having ended) yields no frame. -/
theorem read_packet_sync :
    read_packet [] = none ∧
    (∀ (b : Byte) (rest : List Byte), b.val ≠ HEADER →
      readPacketAux (b :: rest) = readPacketAux rest) ∧
    (∀ (b : Byte) (rest : List Byte), b.val = HEADER → 46 ≤ rest.length →
      readPacketAux (b :: rest) = some (b :: rest.take 46)) ∧
    (∀ (b : Byte) (rest : List Byte), b.val = HEADER → rest.length < 46 →
      readPacketAux (b :: rest) = readPacketAux (rest.drop 46) ∧
        readPacketAux (b :: rest) = none) := by
  refine ⟨?_, ?_, ?_, ?_⟩
  · simp [read_packet, readPacketAux_nil]
  · intro b rest hb
    rw [readPacketAux_cons, if_neg hb]
  · intro b rest hb h
    rw [readPacketAux_cons, if_pos hb, if_pos h]
  · intro b rest hb h
    have h1 : readPacketAux (b :: rest) = readPacketAux (rest.drop 46) := by
      rw [readPacketAux_cons, if_pos hb, if_neg (by omega)]
    have h2 : rest.drop 46 = [] := List.drop_eq_nil_of_le (by omega)
    refine ⟨h1, ?_⟩
    rw [h1, h2, readPacketAux_nil]

/-- Witness for `read_packet_sync`: a non-marker byte is skipped, a
marker followed by 46 bytes yields that block, and a marker at the very
end of the stream yields no frame. -/
theorem read_packet_sync_witness :
    readPacketAux [(0 : Byte)] = readPacketAux [] ∧
    readPacketAux ((0x54 : Byte) :: List.replicate 46 (0 : Byte)) =
      some ((0x54 : Byte) :: (List.replicate 46 (0 : Byte)).take 46) ∧
    readPacketAux [(0x54 : Byte)] = none := by
  refine ⟨?_, ?_, ?_⟩
  · exact read_packet_sync.2.1 0 [] (by decide)
  · exact read_packet_sync.2.2.1 0x54 (List.replicate 46 0) (by decide)
      (by simp)
  · exact (read_packet_sync.2.2.2 0x54 [] (by decide) (by decide)).2

/-- C7: `parse_packet` rejects any input whose length is not 47 or whose
first byte is not 0x54; any accepted input yields the slot-ordered list
of the valid measurements of the 12 slots, hence between 0 and 12 of
them. -/
theorem parse_packet_validation (d : List Byte) :
    ((d.length ≠ PACKET_SIZE ∨ byteAt d 0 ≠ HEADER) → parse_meas d = none) ∧
    (∀ ms, parse_meas d = some ms →
      d.length = PACKET_SIZE ∧ byteAt d 0 = HEADER ∧ ms.length ≤ 12 ∧
        ms = (List.range 12).filterMap (slotMeas d)) := by
  constructor
  · intro h
    unfold parse_meas
    rw [if_pos h]
  · intro ms h
    unfold parse_meas at h
    by_cases hv : d.length ≠ PACKET_SIZE ∨ byteAt d 0 ≠ HEADER
    · rw [if_pos hv] at h
      cases h
    · rw [if_neg hv] at h
      injection h with h'
      push_neg at hv
      subst h'
      refine ⟨hv.1, hv.2, ?_, rfl⟩
      calc ((List.range 12).filterMap (slotMeas d)).length
          ≤ (List.range 12).length := List.length_filterMap_le _ _
        _ = 12 := by simp

/-- Witness for `parse_packet_validation`: a 1-byte input is rejected,
and the accepted `goodFrame` yields at most 12 measurements. -/
theorem parse_packet_validation_witness :
    parse_meas [(0x54 : Byte)] = none ∧ goodMeas.length ≤ 12 := by
  constructor
  · exact (parse_packet_validation [0x54]).1 (Or.inl (by decide))
  · exact ((parse_packet_validation goodFrame).2 goodMeas (by decide)).2.2.1

/-- C4: in an accepted frame, a slot whose 16-bit distance field is zero
contributes no measurement, while every other slot's valid measurement
still appears in the output — the zero slot is skipped, not an error. -/
theorem zero_distance_excluded (d : List Byte) (i : ℕ)
    (hlen : d.length = PACKET_SIZE) (hhd : byteAt d 0 = HEADER)
    (hi : i < 12) (hz : u16 d (6 + i * 3) = 0) :
    slotMeas d i = none ∧
    ∀ ms, parse_meas d = some ms →
      (∀ m ∈ ms, ∃ j, j < 12 ∧ j ≠ i ∧ slotMeas d j = some m) ∧
      (∀ j, j < 12 → j ≠ i → ∀ m, slotMeas d j = some m → m ∈ ms) := by
  have hnone : slotMeas d i = none := by
    simp [slotMeas, hz]
  refine ⟨hnone, ?_⟩
  intro ms h
  have hms : ms = (List.range 12).filterMap (slotMeas d) := by
    unfold parse_meas at h
    rw [if_neg (by push_neg; exact ⟨hlen, hhd⟩)] at h
    exact (Option.some.inj h).symm
  subst hms
  constructor
  · intro m hm
    obtain ⟨j, hj, hsome⟩ := List.mem_filterMap.mp hm
    refine ⟨j, by simpa using hj, ?_, hsome⟩
    rintro rfl
    rw [hnone] at hsome
    cases hsome
  · intro j hj hne m hsome
    exact List.mem_filterMap.mpr ⟨j, by simpa using hj, hsome⟩

/-- Witness for `zero_distance_excluded`: in `frameZeroSlot` (slot 0
zeroed) slot 1's measurement still appears in the decoded output. -/
theorem zero_distance_excluded_witness :
    (⟨83, 1000, 100⟩ : Meas) ∈ goodMeas.drop 1 := by
  have h := zero_distance_excluded frameZeroSlot 0 (by decide) (by decide)
    (by decide) (by decide)
  exact (h.2 (goodMeas.drop 1) (by decide)).2 1 (by decide) (by decide)
    ⟨83, 1000, 100⟩ (by decide)

/-- C5: every measurement decoded from a well-formed frame has its
assigned angle in `[0, 360)` degrees and a strictly positive distance. -/
theorem decoded_angle_range (d : List Byte) (ms : List Meas)
    (h : parse_meas d = some ms) :
    ∀ m ∈ ms, (0 ≤ m.angle ∧ m.angle < 360) ∧ 0 < m.dist := by
  intro m hm
  have hms : ms = (List.range 12).filterMap (slotMeas d) := by
    unfold parse_meas at h
    by_cases hv : d.length ≠ PACKET_SIZE ∨ byteAt d 0 ≠ HEADER
    · rw [if_pos hv] at h
      cases h
    · rw [if_neg hv] at h
      exact (Option.some.inj h).symm
  subst hms
  obtain ⟨j, hj, hsome⟩ := List.mem_filterMap.mp hm
  by_cases hd : 0 < u16 d (6 + j * 3)
  · have hsome' :
        some (⟨(u16 d 4 + j * 83) % 36000, u16 d (6 + j * 3),
          byteAt d (6 + j * 3 + 2)⟩ : Meas) = some m := by
      rw [← hsome]
      simp [slotMeas, hd]
    injection hsome' with h'
    subst h'
    refine ⟨⟨?_, ?_⟩, hd⟩
    · unfold Meas.angle
      positivity
    · unfold Meas.angle
      have hb : (u16 d 4 + j * 83) % 36000 < 36000 :=
        Nat.mod_lt _ (by norm_num)
      have hc : (((u16 d 4 + j * 83) % 36000 : ℕ) : ℚ) < 36000 := by
        exact_mod_cast hb
      linarith
  · have hns : slotMeas d j = none := by
      simp [slotMeas, hd]
    rw [hns] at hsome
    cases hsome

/-- Witness for `decoded_angle_range` on the slot-0 measurement of
`goodFrame`. -/
theorem decoded_angle_range_witness :
    (0 ≤ (⟨0, 1000, 100⟩ : Meas).angle ∧
      (⟨0, 1000, 100⟩ : Meas).angle < 360) ∧
    0 < (⟨0, 1000, 100⟩ : Meas).dist :=
  decoded_angle_range goodFrame goodMeas (by decide) ⟨0, 1000, 100⟩
    (by decide)

/-- C8: the projection of a measurement with angle `a` degrees and
distance `d` is `x = d * cos(a * π / 180)`, `y = d * sin(a * π / 180)`,
with the intensity byte passed through unchanged; `parse_packet` maps it
over the decoded measurement list. -/
theorem point_projection :
    (∀ m : Meas, pointOf m =
      ((m.dist : ℝ) * Real.cos (((m.angle : ℚ) : ℝ) * Real.pi / 180),
       (m.dist : ℝ) * Real.sin (((m.angle : ℚ) : ℝ) * Real.pi / 180),
       m.intensity)) ∧
    (∀ (d : List Byte) (ms : List Meas), parse_meas d = some ms →
      parse_packet d = some (ms.map pointOf)) := by
  constructor
  · intro m
    rfl
  · intro d ms h
    simp [parse_packet, h]

/-- Witness for `point_projection` on `goodFrame`. -/
theorem point_projection_witness :
    parse_packet goodFrame = some (goodMeas.map pointOf) :=
  point_projection.2 goodFrame goodMeas (by decide)

theorem byteAt_set_ne (d : List Byte) (j : ℕ) (b : Byte) (k : ℕ)
    (h : j ≠ k) : byteAt (d.set j b) k = byteAt d k := by
  unfold byteAt
  rw [List.getD_eq_get?, List.getD_eq_get?, List.get?_set_ne _ _ h]

theorem u16_set_ne (d : List Byte) (j : ℕ) (b : Byte) (k : ℕ)
    (h1 : j ≠ k) (h2 : j ≠ k + 1) : u16 (d.set j b) k = u16 d k := by
  unfold u16
  rw [byteAt_set_ne _ _ _ _ h1, byteAt_set_ne _ _ _ _ h2]

/-- C1 counterexample: `goodFrame` and `goodFrameCrc1` agree on their
first 46 bytes and differ in the trailing checksum byte, yet both decode
to the same nonempty measurement list.  Whatever checksum value the
shared first 46 bytes determine, at least one of the two frames carries
a mismatching checksum byte — and its measurements are all returned. -/
theorem checksum_mismatch_cex :
    parse_meas goodFrame = some goodMeas ∧
    parse_meas goodFrameCrc1 = some goodMeas ∧
    goodFrame.take 46 = goodFrameCrc1.take 46 ∧
    goodFrame.getD 46 0 ≠ goodFrameCrc1.getD 46 0 ∧
    goodMeas ≠ [] := by
  decide

/-- C1 (amended): `parse_packet` performs no checksum verification; its
output is invariant under any replacement of the checksum byte 46. -/
theorem parse_packet_ignores_checksum (d : List Byte) (b : Byte) :
    parse_meas (d.set 46 b) = parse_meas d := by
  have hlen : (d.set 46 b).length = d.length := List.length_set d 46 b
  have hb0 : byteAt (d.set 46 b) 0 = byteAt d 0 :=
    byteAt_set_ne _ _ _ _ (by omega)
  have hslot : ∀ i, i < 12 → slotMeas (d.set 46 b) i = slotMeas d i := by
    intro i hi
    unfold slotMeas
    dsimp only
    rw [show u16 (d.set 46 b) (6 + i * 3) = u16 d (6 + i * 3) from
        u16_set_ne _ _ _ _ (by omega) (by omega),
      show u16 (d.set 46 b) 4 = u16 d 4 from
        u16_set_ne _ _ _ _ (by omega) (by omega),
      show byteAt (d.set 46 b) (6 + i * 3 + 2) = byteAt d (6 + i * 3 + 2) from
        byteAt_set_ne _ _ _ _ (by omega)]
  unfold parse_meas
  rw [hlen, hb0]
  by_cases hv : d.length ≠ PACKET_SIZE ∨ byteAt d 0 ≠ HEADER
  · rw [if_pos hv, if_pos hv]
  · rw [if_neg hv, if_neg hv]
    congr 1
    refine List.filterMap_congr ?_
    intro i hi
    exact hslot i (by simpa using hi)

/-- C2: on the failing input `frameEnd20` the decoder reads
`start_angle = 0` and `end_angle = 20` degrees, yet assigns slot 11 the
angle `9.13 = 0 + 11 * 0.83` degrees — the same output as `goodFrame`,
whose end angle is `9.96`: the assignment ignores `end_angle` entirely
and misses every linear interpolation toward 20 degrees by far more
than `0.001` degrees. -/
theorem angle_not_interpolated_cex :
    parse_meas frameEnd20 = parse_meas goodFrame ∧
    parse_meas frameEnd20 = some goodMeas ∧
    start_angle frameEnd20 = 0 ∧
    end_angle frameEnd20 = 20 ∧
    end_angle goodFrame = 996 / 100 ∧
    goodMeas.get? 11 = some ⟨913, 1000, 100⟩ ∧
    ¬ |(⟨913, 1000, 100⟩ : Meas).angle - end_angle frameEnd20| ≤ 1 / 1000 ∧
    ¬ |(⟨913, 1000, 100⟩ : Meas).angle -
        (start_angle frameEnd20 +
          11 * (end_angle frameEnd20 - start_angle frameEnd20) / 12)| ≤
      1 / 1000 := by
  have hs : start_angle frameEnd20 = 0 := by
    have h : u16 frameEnd20 4 = 0 := by decide
    simp [start_angle, h]
  have he : end_angle frameEnd20 = 20 := by
    have h : u16 frameEnd20 42 = 2000 := by decide
    simp [end_angle, h]
    norm_num
  have hg : end_angle goodFrame = 996 / 100 := by
    have h : u16 goodFrame 42 = 996 := by decide
    simp [end_angle, h]
  refine ⟨by decide, by decide, hs, he, hg, by decide, ?_, ?_⟩
  · rw [he]
    simp only [Meas.angle]
    rw [abs_le]
    push_cast
    norm_num
  · rw [hs, he]
    simp only [Meas.angle]
    rw [abs_le]
    push_cast
    norm_num

/-- Bounds-checked read of `data[k]`: `none` models a raised
`IndexError`. -/
def u16E (d : List Byte) (k : ℕ) : Option ℕ := do
  let lo ← d.get? k
  let hi ← d.get? (k + 1)
  pure (lo.val + 256 * hi.val)

/-- Bounds-checked version of `slotMeas`; the outer `none` models an
out-of-bounds or short-slice access, the inner option is the slot's
measurement as in `slotMeas`. -/
def slotMeasE (d : List Byte) (sa : ℕ) (i : ℕ) : Option (Option Meas) := do
  let offset := 6 + i * 3
  let distance ← u16E d offset
  let intensity ← d.get? (offset + 2)
  pure (if 0 < distance then
    some ⟨(sa + i * 83) % 36000, distance, intensity.val⟩
  else none)

/-- Bounds-checked version of `parse_meas`, performing every fixed-offset
access of the source (`ver_len`, `speed`, `start_angle`, the 12 slots,
`end_angle`, `timestamp`, `crc`) through checked reads: an outer `none`
models an uncaught `IndexError`/`struct.error`, the inner option is the
parse result. -/
def parse_measE (d : List Byte) : Option (Option (List Meas)) :=
  if d.length ≠ PACKET_SIZE then some none
  else do
    let h0 ← d.get? 0
    if h0.val ≠ HEADER then
      pure none
    else do
      let _ver_len ← d.get? 1
      let _speed ← u16E d 2
      let sa ← u16E d 4
      let slots ← (List.range 12).mapM (slotMeasE d sa)
      let _ea ← u16E d 42
      let _ts ← u16E d 44
      let _crc ← d.get? 46
      pure (some (slots.filterMap id))

theorem get?_eq_some_getD (d : List Byte) (k : ℕ) (h : k < d.length) :
    d.get? k = some (d.getD k 0) := by
  have h1 := List.get?_eq_get (l := d) (n := k) h
  rw [h1, List.getD_eq_get?, h1]
  rfl

theorem u16E_eq (d : List Byte) (k : ℕ) (h : k + 1 < d.length) :
    u16E d k = some (u16 d k) := by
  unfold u16E u16 byteAt
  rw [get?_eq_some_getD d k (by omega), get?_eq_some_getD d (k + 1) h]
  rfl

theorem slotMeasE_eq (d : List Byte) (i : ℕ) (hi : i < 12)
    (hlen : d.length = PACKET_SIZE) :
    slotMeasE d (u16 d 4) i = some (slotMeas d i) := by
  unfold slotMeasE slotMeas byteAt
  dsimp only
  rw [u16E_eq d (6 + i * 3) (by rw [hlen]; unfold PACKET_SIZE; omega),
    get?_eq_some_getD d (6 + i * 3 + 2) (by rw [hlen]; unfold PACKET_SIZE; omega)]
  rfl

theorem mapM_some {α β : Type} (l : List α) (f : α → Option β) (g : α → β)
    (h : ∀ a ∈ l, f a = some (g a)) : l.mapM f = some (l.map g) := by
  induction l with
  | nil => rfl
  | cons a l ih =>
    rw [List.mapM_cons, h a (List.mem_cons_self a l),
      ih (fun x hx => h x (List.mem_cons_of_mem a hx))]
    rfl

/-- C9: the bounds-checked parser never reports an out-of-bounds access
and agrees with `parse_meas` on every input, and every accepted input
carries at most 12 measurements: `parse_packet` is total with all its
fixed-offset accesses guarded by the length-47 check. -/
theorem parse_packet_total (d : List Byte) :
    parse_measE d = some (parse_meas d) ∧
    ((parse_meas d).getD []).length ≤ 12 := by
  constructor
  · by_cases hlen : d.length = PACKET_SIZE
    · have hlen47 : d.length = 47 := hlen
      have g0 := get?_eq_some_getD d 0 (by omega)
      have g1 := get?_eq_some_getD d 1 (by omega)
      have g46 := get?_eq_some_getD d 46 (by omega)
      have e2 := u16E_eq d 2 (by omega)
      have e4 := u16E_eq d 4 (by omega)
      have e42 := u16E_eq d 42 (by omega)
      have e44 := u16E_eq d 44 (by omega)
      have hm := mapM_some (List.range 12) (slotMeasE d (u16 d 4))
        (slotMeas d) (fun i hi => slotMeasE_eq d i (by simpa using hi) hlen)
      unfold parse_measE parse_meas
      rw [if_neg (by simp [hlen])]
      rw [g0]
      by_cases hh : byteAt d 0 = HEADER
      · rw [if_neg (by push_neg; exact ⟨hlen, hh⟩)]
        have hh' : ¬ (d.getD 0 0).val ≠ HEADER := by
          simpa [byteAt] using hh
        simp only [Option.bind_eq_bind, Option.some_bind, if_neg hh']
        rw [g1, e2, e4]
        simp only [Option.bind_eq_bind, Option.some_bind]
        rw [hm]
        simp only [Option.bind_eq_bind, Option.some_bind]
        rw [e42, e44, g46]
        simp only [Option.bind_eq_bind, Option.some_bind]
        rw [List.filterMap_map]
        rfl
      · rw [if_pos (Or.inr hh)]
        have hh' : (d.getD 0 0).val ≠ HEADER := by
          simpa [byteAt] using hh
        simp only [Option.bind_eq_bind, Option.some_bind, if_pos hh']
        rfl
    · unfold parse_measE parse_meas
      rw [if_pos hlen, if_pos (Or.inl hlen)]
  · cases hp : parse_meas d with
    | none => simp
    | some ms =>
      have hms : ms = (List.range 12).filterMap (slotMeas d) := by
        unfold parse_meas at hp
        by_cases hv : d.length ≠ PACKET_SIZE ∨ byteAt d 0 ≠ HEADER
        · rw [if_pos hv] at hp
          cases hp
        · rw [if_neg hv] at hp
          exact (Option.some.inj hp).symm
      rw [Option.getD_some, hms]
      exact le_trans (List.length_filterMap_le _ _) (by simp)

/-- C10: `update_points` leaves the point buffer unchanged when the
reader yields no frame or a frame with zero valid measurements, and
otherwise extends the bounded buffer with exactly the decoded points. -/
theorem update_points_effect (buf : List (ℝ × ℝ × ℕ)) (s : List Byte) :
    (read_packet_points s = none → update_points buf s = buf) ∧
    (read_packet_points s = some [] → update_points buf s = buf) ∧
    (∀ ps, read_packet_points s = some ps → ps ≠ [] →
      update_points buf s = dextend 5000 buf ps) := by
  refine ⟨?_, ?_, ?_⟩
  · intro h
    unfold update_points
    rw [h]
  · intro h
    unfold update_points
    rw [h]
    simp
  · intro ps h hne
    unfold update_points
    rw [h]
    simp [hne]

/-- Witness for `update_points_effect`: an empty stream leaves the
buffer unchanged; `goodFrame` extends it with the 12 decoded points. -/
theorem update_points_effect_witness :
    update_points [] [] = [] ∧
    update_points [] goodFrame = dextend 5000 [] (goodMeas.map pointOf) := by
  constructor
  · exact (update_points_effect [] []).1
      (by simp [read_packet_points, readPacketAux_nil])
  · refine (update_points_effect [] goodFrame).2.2 (goodMeas.map pointOf)
      ?_ ?_
    · have h : parse_meas goodFrame = some goodMeas := by decide
      simp [read_packet_points, readPacketAux_goodFrame, parse_packet, h]
    · simp [goodMeas]

end LD19
